import Mathlib

/-!
Shallow embedding of the Bordeaux AOC Top 20 server (src/server.js).

The embedding covers the parts of the program the specification talks
about: the override policy (function adjustedRating and the SQL CASE
expression computing adjusted_rating), the catalog store (wines,
admin_overrides and meta tables, with upserts keyed on external_id and
wine_id), the ranking query behind GET /api/wines (join, filters, ORDER
BY adjusted_rating DESC, rating_count DESC, price ASC NULLS LAST, and
the LIMIT/OFFSET policy), the admin override write path behind
POST /api/admin/override, the ingestion pipeline behind
POST /api/admin/import, the cron due-check, and GET /api/aocs.

REAL columns are modelled as rationals, TEXT timestamps as abstract
instants (Nat), and nullable columns as Option.
-/

/-- A row of the wines table. -/
structure Wine where
  id : Nat
  external_id : String
  name : String
  winery : Option String
  aoc : String
  vintage : Option Int
  vivino_rating : ℚ
  rating_count : Int
  price : Option ℚ
  last_source_update : Nat
  created_at : Nat
  updated_at : Nat
  deriving DecidableEq

/-- A row of the admin_overrides table (primary key wine_id). -/
structure OverrideRec where
  wine_id : Nat
  adjustment_pct : ℚ
  updated_at : Nat
  deriving DecidableEq

/-- A normalized import record, as produced by the CSV/JSON mapping in
POST /api/admin/import before it is handed to upsertWine.  The
last_source_update stamp is supplied by the ingestion timestamp. -/
structure ImportRecord where
  external_id : String
  name : String
  winery : Option String
  aoc : String
  vintage : Option Int
  vivino_rating : ℚ
  rating_count : Int
  price : Option ℚ
  deriving DecidableEq

/-- The whole SQLite database: wines, admin_overrides, and the
last_refresh entry of the meta table. -/
structure Store where
  wines : List Wine
  overrides : List OverrideRec
  last_refresh : Option Nat
  deriving DecidableEq

/-- The clamp used by function adjustedRating in server.js:
Math.max(-25, Math.min(25, adj)). -/
def clamp (p : ℚ) : ℚ := max (-25) (min 25 p)

/-- The clamp used by the SQL expression in GET /api/wines and
POST /api/admin/override: CASE WHEN adj GREATER 25 THEN 25 WHEN adj LESS
-25 THEN -25 ELSE adj END. -/
def sqlClamp (p : ℚ) : ℚ := if 25 < p then 25 else if p < -25 then -25 else p

/-- Function adjustedRating of server.js: base * (1 + clamp(adj) / 100). -/
def adjustedRating (base adj : ℚ) : ℚ := base * (1 + clamp adj / 100)

/-- External ids of the wines currently in the store, in row order. -/
def eids (s : Store) : List String := s.wines.map (fun w => w.external_id)

/-- Whether some wine row already carries the given external id. -/
def hasEid (s : Store) (e : String) : Bool := s.wines.any (fun w => w.external_id == e)

/-- The ON CONFLICT(external_id) DO UPDATE branch of the upsertWine
statement: overwrite every source-derived column and updated_at, keep
id, external_id and created_at. -/
def applyUpd (now : Nat) (w : Wine) (r : ImportRecord) : Wine :=
  { w with
    name := r.name
    winery := r.winery
    aoc := r.aoc
    vintage := r.vintage
    vivino_rating := r.vivino_rating
    rating_count := r.rating_count
    price := r.price
    last_source_update := now
    updated_at := now }

/-- The rowid SQLite assigns to a fresh row: one more than the largest
id in use. -/
def nextId (s : Store) : Nat := (s.wines.map (fun w => w.id)).foldr max 0 + 1

/-- The INSERT branch of the upsertWine statement. -/
def newWine (now : Nat) (wid : Nat) (r : ImportRecord) : Wine :=
  { id := wid
    external_id := r.external_id
    name := r.name
    winery := r.winery
    aoc := r.aoc
    vintage := r.vintage
    vivino_rating := r.vivino_rating
    rating_count := r.rating_count
    price := r.price
    last_source_update := now
    created_at := now
    updated_at := now }

/-- The prepared statement upsertWine of server.js: INSERT keyed on
external_id, ON CONFLICT DO UPDATE of all source-derived fields and
updated_at.  It touches only the wines table. -/
def upsertWine (now : Nat) (s : Store) (r : ImportRecord) : Store :=
  if hasEid s r.external_id then
    { s with
      wines := s.wines.map
        (fun w => if w.external_id == r.external_id then applyUpd now w r else w) }
  else
    { s with wines := s.wines ++ [newWine now (nextId s) r] }

/-- The transaction of POST /api/admin/import: upsert every record of
the batch, then set meta last_refresh to the current time. -/
def ingest (now : Nat) (s : Store) (B : List ImportRecord) : Store :=
  { B.foldl (upsertWine now) s with last_refresh := some now }

/-- The prepared statement upsertOverride: INSERT keyed on the primary
key wine_id, ON CONFLICT DO UPDATE of adjustment_pct and updated_at.
Since wine_id is the primary key, at most one row matches. -/
def upsertOverrideList (now : Nat) (wid : Nat) (pct : ℚ) : List OverrideRec → List OverrideRec
  | [] => [{ wine_id := wid, adjustment_pct := pct, updated_at := now }]
  | o :: rest =>
      if o.wine_id == wid then { o with adjustment_pct := pct, updated_at := now } :: rest
      else o :: upsertOverrideList now wid pct rest

/-- Store-level view of upsertOverride. -/
def upsertOverride (now : Nat) (s : Store) (wid : Nat) (pct : ℚ) : Store :=
  { s with overrides := upsertOverrideList now wid pct s.overrides }

/-- The IFNULL(o.adjustment_pct, 0) of the LEFT JOIN in GET /api/wines:
the adjustment stored for a wine, or 0 when there is no override row. -/
def overrideFor (s : Store) (wid : Nat) : ℚ :=
  match s.overrides.find? (fun o => o.wine_id == wid) with
  | none => 0
  | some o => o.adjustment_pct

/-- One result row of the join in GET /api/wines: the wine together
with its (defaulted) adjustment percentage. -/
structure RankedRow where
  wine : Wine
  adjustment_pct : ℚ
  deriving DecidableEq

/-- The adjusted_rating column computed by the SQL of GET /api/wines. -/
def RankedRow.adjusted (r : RankedRow) : ℚ :=
  r.wine.vivino_rating * (1 + sqlClamp r.adjustment_pct / 100)

/-- The join row for a given wine. -/
def rowOf (s : Store) (w : Wine) : RankedRow := ⟨w, overrideFor s w.id⟩

/-- Case-insensitive substring test, modelling the SQLite expression
column LIKE percent-q-percent. -/
def likeContains (hay pat : String) : Bool :=
  (List.range (hay.length + 1)).any
    (fun i => pat.toLower.data.isPrefixOf (hay.toLower.data.drop i))

/-- The optional exact AOC filter of GET /api/wines. -/
def matchesAoc (ao : Option String) (w : Wine) : Bool :=
  match ao with
  | none => true
  | some a => w.aoc == a

/-- The optional free-text filter of GET /api/wines: name LIKE q OR
winery LIKE q, where a NULL winery never matches. -/
def matchesQ (qo : Option String) (w : Wine) : Bool :=
  match qo with
  | none => true
  | some q =>
      likeContains w.name q ||
        (match w.winery with
         | none => false
         | some t => likeContains t q)

/-- The optional inclusive lower bound on adjusted_rating. -/
def matchesMin (m : Option ℚ) (r : RankedRow) : Bool :=
  match m with
  | none => true
  | some x => decide (x ≤ r.adjusted)

/-- The optional inclusive upper bound on adjusted_rating. -/
def matchesMax (m : Option ℚ) (r : RankedRow) : Bool :=
  match m with
  | none => true
  | some x => decide (r.adjusted ≤ x)

/-- Order on the nullable price column: ascending, NULLS LAST. -/
def priceLE : Option ℚ → Option ℚ → Prop
  | some x, some y => x ≤ y
  | some _, none => True
  | none, some _ => False
  | none, none => True

instance : DecidableRel priceLE
  | some x, some y => inferInstanceAs (Decidable (x ≤ y))
  | some _, none => inferInstanceAs (Decidable True)
  | none, some _ => inferInstanceAs (Decidable False)
  | none, none => inferInstanceAs (Decidable True)

/-- The ORDER BY of GET /api/wines: adjusted_rating DESC, rating_count
DESC, price ASC NULLS LAST.  rankLE a b says that row a may precede
row b in the output. -/
def rankLE (a b : RankedRow) : Prop :=
  b.adjusted < a.adjusted ∨
    (a.adjusted = b.adjusted ∧
      (b.wine.rating_count < a.wine.rating_count ∨
        (a.wine.rating_count = b.wine.rating_count ∧ priceLE a.wine.price b.wine.price)))

instance : DecidableRel rankLE := fun a b => by
  unfold rankLE; infer_instance

/-- The joined, filtered and ordered result of GET /api/wines before
LIMIT/OFFSET is applied. -/
def rankedRows (s : Store) (ao qo : Option String) (minR maxR : Option ℚ) : List RankedRow :=
  List.insertionSort rankLE
    ((s.wines.map (rowOf s)).filter
      (fun r => matchesAoc ao r.wine && matchesQ qo r.wine && matchesMin minR r && matchesMax maxR r))

/-- The lim computed by GET /api/wines: all ? null : Number(limit ||
(aoc ? 20 : 100)).  none means the all flag suppressed any limit. -/
def effLimit (allFlag : Bool) (limit : Option Nat) (ao : Option String) : Option Nat :=
  if allFlag then none else some (limit.getD (if ao.isSome then 20 else 100))

/-- The full GET /api/wines handler: a LIMIT/OFFSET clause is emitted
only when lim is truthy, so a lim of 0 emits no clause at all. -/
def apiWines (s : Store) (ao qo : Option String) (minR maxR : Option ℚ)
    (limit : Option Nat) (offset : Nat) (allFlag : Bool) : List RankedRow :=
  let rows := rankedRows s ao qo minR maxR
  match effLimit allFlag limit ao with
  | none => rows
  | some 0 => rows
  | some n => (rows.drop offset).take n

/-- Outcome of POST /api/admin/override. -/
inductive OverrideResult where
  | badRequest
  | notFound
  | ok
  deriving DecidableEq

/-- The POST /api/admin/override handler: validate the range first
(rejecting without any write), then look the wine up, then upsert the
override row. -/
def setOverride (now : Nat) (s : Store) (wid : Nat) (pct : ℚ) : OverrideResult × Store :=
  if pct < -25 ∨ 25 < pct then (OverrideResult.badRequest, s)
  else if s.wines.any (fun w => w.id == wid) then (OverrideResult.ok, upsertOverride now s wid pct)
  else (OverrideResult.notFound, s)

/-- Function refreshVivinoData of server.js: when the seed file exists,
upsert every record of it and stamp meta last_refresh; with no seed
file it does nothing. -/
def refreshVivinoData (now : Nat) (seed : Option (List ImportRecord)) (s : Store) : Store :=
  match seed with
  | none => s
  | some B => ingest now s B

/-- Days elapsed since the last refresh, as the cron callback computes
it: 9999 when last_refresh is absent, the truncated day difference
otherwise. -/
def daysSince (now : Nat) (last : Option Nat) : Nat :=
  match last with
  | none => 9999
  | some t => now - t

/-- The cron callback of server.js: run refreshVivinoData exactly when
at least 75 days have elapsed.  Time is measured in whole days. -/
def cronCheck (now : Nat) (seed : Option (List ImportRecord)) (s : Store) : Store :=
  if 75 ≤ daysSince now s.last_refresh then refreshVivinoData now seed s else s

/-- The names of the distinct AOC values present in the wines table. -/
def aocNames (s : Store) : List String := (s.wines.map (fun w => w.aoc)).dedup

/-- The SQL rows of GET /api/aocs: SELECT aoc, COUNT(*) GROUP BY aoc
ORDER BY aoc. -/
def aocRows (s : Store) : List (String × Nat) :=
  (List.insertionSort (fun a b => a ≤ b) (aocNames s)).map
    (fun a => (a, (s.wines.filter (fun w => w.aoc == a)).length))

/-- The HTTP response of GET /api/aocs: rows.map(r => r.aoc), so only
the names survive into the response. -/
def apiAocs (s : Store) : List String := (aocRows s).map Prod.fst

/-- Field-wise equality of wine rows up to the two timestamp columns
updated_at and last_source_update. -/
def sameExceptTimestamps (w v : Wine) : Prop :=
  w.id = v.id ∧ w.external_id = v.external_id ∧ w.name = v.name ∧ w.winery = v.winery ∧
    w.aoc = v.aoc ∧ w.vintage = v.vintage ∧ w.vivino_rating = v.vivino_rating ∧
    w.rating_count = v.rating_count ∧ w.price = v.price ∧ w.created_at = v.created_at

/-- The source-derived payload a wine row would carry after being
upserted from record r at time t. -/
def payloadEq (w : Wine) (r : ImportRecord) (t : Nat) : Prop :=
  w.name = r.name ∧ w.winery = r.winery ∧ w.aoc = r.aoc ∧ w.vintage = r.vintage ∧
    w.vivino_rating = r.vivino_rating ∧ w.rating_count = r.rating_count ∧ w.price = r.price ∧
    w.last_source_update = t ∧ w.updated_at = t

/-- The cumulative effect of a batch on one wine row: apply the last
record of the batch carrying the same external id, if any. -/
def updLast (t : Nat) (B : List ImportRecord) (w : Wine) : Wine :=
  match (B.filter (fun r => r.external_id == w.external_id)).getLast? with
  | none => w
  | some r => applyUpd t w r

/-- A concrete wine row used to evaluate the theorems below. -/
def wineA : Wine :=
  { id := 1
    external_id := "w1"
    name := "Chateau Alpha"
    winery := some "Estate Alpha"
    aoc := "Margaux"
    vintage := some 2018
    vivino_rating := 42/10
    rating_count := 100
    price := some 35
    last_source_update := 0
    created_at := 0
    updated_at := 0 }

/-- A concrete store with one wine and no override. -/
def sampleStore : Store := { wines := [wineA], overrides := [], last_refresh := some 10 }

/-- A second wine row in the same appellation. -/
def wineA2 : Wine := { wineA with id := 2, external_id := "w1b" }

/-- A store holding two wines of the same appellation. -/
def sampleStore2 : Store := { wines := [wineA, wineA2], overrides := [], last_refresh := none }

/-- A concrete import record used to evaluate ingestion. -/
def recB : ImportRecord :=
  { external_id := "w2"
    name := "Chateau Beta"
    winery := none
    aoc := "Pauillac"
    vintage := none
    vivino_rating := 4
    rating_count := 50
    price := none }

/-- A store whose last refresh happened at day 10. -/
def schedStore : Store := { wines := [], overrides := [], last_refresh := some 10 }

/-- A store that has never been refreshed. -/
def schedStoreNone : Store := { wines := [], overrides := [], last_refresh := none }

/-! Helper lemmas about the ordering relation and the clamps. -/

theorem priceLE_total (a b : Option ℚ) : priceLE a b ∨ priceLE b a := by
  cases a <;> cases b <;> simp [priceLE]
  exact le_total _ _

theorem priceLE_trans (a b c : Option ℚ) (h1 : priceLE a b) (h2 : priceLE b c) : priceLE a c := by
  cases a <;> cases b <;> cases c <;> simp [priceLE] at *
  exact le_trans h1 h2

instance : IsTotal RankedRow rankLE := by
  constructor
  intro a b
  rcases lt_trichotomy a.adjusted b.adjusted with h | h | h
  · exact Or.inr (Or.inl h)
  · rcases lt_trichotomy a.wine.rating_count b.wine.rating_count with h2 | h2 | h2
    · exact Or.inr (Or.inr ⟨h.symm, Or.inl h2⟩)
    · rcases priceLE_total a.wine.price b.wine.price with h3 | h3
      · exact Or.inl (Or.inr ⟨h, Or.inr ⟨h2, h3⟩⟩)
      · exact Or.inr (Or.inr ⟨h.symm, Or.inr ⟨h2.symm, h3⟩⟩)
    · exact Or.inl (Or.inr ⟨h, Or.inl h2⟩)
  · exact Or.inl (Or.inl h)

instance : IsTrans RankedRow rankLE := by
  constructor
  intro a b c hab hbc
  rcases hab with h1 | ⟨e1, h1⟩
  · rcases hbc with h2 | ⟨e2, h2⟩
    · exact Or.inl (lt_trans h2 h1)
    · exact Or.inl (e2 ▸ h1)
  · rcases hbc with h2 | ⟨e2, h2⟩
    · exact Or.inl (e1 ▸ h2)
    · refine Or.inr ⟨e1.trans e2, ?_⟩
      rcases h1 with h1 | ⟨f1, h1⟩
      · rcases h2 with h2 | ⟨f2, h2⟩
        · exact Or.inl (lt_trans h2 h1)
        · exact Or.inl (f2 ▸ h1)
      · rcases h2 with h2 | ⟨f2, h2⟩
        · exact Or.inl (f1 ▸ h2)
        · exact Or.inr ⟨f1.trans f2, priceLE_trans _ _ _ h1 h2⟩

theorem sqlClamp_eq_clamp (p : ℚ) : sqlClamp p = clamp p := by
  unfold sqlClamp clamp
  rcases lt_or_le 25 p with h | h
  · rw [if_pos h, min_eq_left (by linarith), max_eq_right (by norm_num)]
  · rw [if_neg (not_lt.mpr h), min_eq_right h]
    by_cases hp : p < -25
    · rw [if_pos hp, max_eq_left (by linarith)]
    · rw [if_neg hp, max_eq_right (by linarith)]

theorem clamp_lower (p : ℚ) : -25 ≤ clamp p := le_max_left _ _

theorem clamp_upper (p : ℚ) : clamp p ≤ 25 :=
  max_le (by norm_num) (min_le_left _ _)

theorem clamp_of_mem (p : ℚ) (h1 : -25 ≤ p) (h2 : p ≤ 25) : clamp p = p := by
  unfold clamp
  rw [min_eq_right h2, max_eq_right h1]

theorem RankedRow.adjusted_eq (r : RankedRow) :
    r.adjusted = adjustedRating r.wine.vivino_rating r.adjustment_pct := by
  unfold RankedRow.adjusted adjustedRating
  rw [sqlClamp_eq_clamp]

/-- C1: the effective score is baseScore * (1 + clamp(adjustmentPercent)
/ 100) with clamp saturating into [-25, 25]; it is the identity at
adjustment 0, it saturates so that 26 behaves like 25, and the SQL CASE
clamp used by the query paths agrees with it everywhere. -/
theorem C1_effectiveScore :
    (∀ b p : ℚ, adjustedRating b p = b * (1 + clamp p / 100)) ∧
    (∀ b : ℚ, adjustedRating b 0 = b) ∧
    (∀ b : ℚ, adjustedRating b 26 = adjustedRating b 25) ∧
    (∀ p : ℚ, -25 ≤ clamp p ∧ clamp p ≤ 25) ∧
    (∀ p : ℚ, sqlClamp p = clamp p) := by
  refine ⟨fun b p => rfl, fun b => ?_, fun b => ?_, fun p => ⟨clamp_lower p, clamp_upper p⟩,
    sqlClamp_eq_clamp⟩
  · rw [adjustedRating, clamp_of_mem 0 (by norm_num) (by norm_num)]
    norm_num
  · rw [adjustedRating, adjustedRating, clamp_of_mem 25 (by norm_num) (by norm_num)]
    norm_num [clamp]

theorem matchesMin_iff (m : Option ℚ) (r : RankedRow) :
    matchesMin m r = true ↔ ∀ x, m = some x → x ≤ r.adjusted := by
  cases m <;> simp [matchesMin]

theorem matchesMax_iff (m : Option ℚ) (r : RankedRow) :
    matchesMax m r = true ↔ ∀ x, m = some x → r.adjusted ≤ x := by
  cases m <;> simp [matchesMax]

/-- C3: every result of the wines query is sorted by the ranking
order: effective (adjusted) score descending, then review count
descending, then price ascending with missing prices last; any pair of
rows of the result respects this order, whatever filters, limit,
offset or all flag were supplied, and the result is a pure function of
the store and the query parameters. -/
theorem C3_ranking_order (s : Store) (ao qo : Option String) (minR maxR : Option ℚ)
    (limit : Option Nat) (offset : Nat) (allFlag : Bool) :
    List.Sorted rankLE (apiWines s ao qo minR maxR limit offset allFlag) := by
  have hs : List.Sorted rankLE (rankedRows s ao qo minR maxR) :=
    List.sorted_insertionSort rankLE _
  unfold apiWines
  cases h : effLimit allFlag limit ao with
  | none => exact hs
  | some n =>
    cases n with
    | zero => exact hs
    | succ m =>
      exact List.Pairwise.sublist ((List.take_sublist _ _).trans (List.drop_sublist _ _)) hs

/-- C5: with no caller-supplied limit, an appellation-filtered query
returns at most 20 rows and an unfiltered one at most 100; the all
flag requests the unbounded result. -/
theorem C5_default_limits (s : Store) (a : String) (qo : Option String)
    (minR maxR : Option ℚ) (offset : Nat) :
    (apiWines s (some a) qo minR maxR none offset false).length ≤ 20 ∧
    (apiWines s none qo minR maxR none offset false).length ≤ 100 ∧
    (∀ ao limit, apiWines s ao qo minR maxR limit offset true = rankedRows s ao qo minR maxR) := by
  refine ⟨?_, ?_, fun ao limit => rfl⟩
  · have h : apiWines s (some a) qo minR maxR none offset false
        = ((rankedRows s (some a) qo minR maxR).drop offset).take 20 := rfl
    rw [h]
    exact List.length_take_le _ _
  · have h : apiWines s none qo minR maxR none offset false
        = ((rankedRows s none qo minR maxR).drop offset).take 100 := rfl
    rw [h]
    exact List.length_take_le _ _

/-- C8: a row enters the query result exactly when it passes the
appellation and text filters and its effective (override-adjusted)
score lies inclusively within every supplied bound; the bounds compare
the adjusted score, never the base score. -/
theorem C8_bounds_on_effective (s : Store) (ao qo : Option String) (minR maxR : Option ℚ)
    (r : RankedRow) :
    r ∈ rankedRows s ao qo minR maxR ↔
      (r ∈ s.wines.map (rowOf s) ∧ matchesAoc ao r.wine = true ∧ matchesQ qo r.wine = true ∧
        (∀ x, minR = some x → x ≤ adjustedRating r.wine.vivino_rating r.adjustment_pct) ∧
        (∀ x, maxR = some x → adjustedRating r.wine.vivino_rating r.adjustment_pct ≤ x)) := by
  unfold rankedRows
  rw [(List.perm_insertionSort rankLE _).mem_iff, List.mem_filter]
  simp only [Bool.and_eq_true, matchesMin_iff, matchesMax_iff, RankedRow.adjusted_eq]
  tauto

/-- C10: a caller-supplied limit of 0 is falsy, so no LIMIT/OFFSET
clause is emitted: the query returns every matching row (same result
as the explicit all flag) and the offset is ignored. -/
theorem C10_limit_zero (s : Store) (ao qo : Option String) (minR maxR : Option ℚ)
    (offset : Nat) :
    apiWines s ao qo minR maxR (some 0) offset false = rankedRows s ao qo minR maxR ∧
    apiWines s ao qo minR maxR (some 0) offset false
      = apiWines s ao qo minR maxR none offset true :=
  ⟨rfl, rfl⟩

/-! Frame lemmas: wine upserts never touch the admin_overrides table. -/

theorem upsertWine_overrides (t : Nat) (s : Store) (r : ImportRecord) :
    (upsertWine t s r).overrides = s.overrides := by
  unfold upsertWine
  split <;> rfl

theorem foldl_upsertWine_overrides (t : Nat) :
    ∀ (B : List ImportRecord) (s : Store), (B.foldl (upsertWine t) s).overrides = s.overrides := by
  intro B
  induction B with
  | nil => intro s; rfl
  | cons b B ih => intro s; rw [List.foldl_cons, ih, upsertWine_overrides]

/-- C2: ingesting any batch of source records (including records whose
externalId already exists) leaves the admin_overrides table, and hence
every stored adjustment percentage, exactly as it was. -/
theorem C2_ingest_preserves_overrides (t : Nat) (s : Store) (B : List ImportRecord) :
    (ingest t s B).overrides = s.overrides ∧
    (∀ wid, overrideFor (ingest t s B) wid = overrideFor s wid) := by
  have h : (ingest t s B).overrides = s.overrides := foldl_upsertWine_overrides t B s
  refine ⟨h, fun wid => ?_⟩
  unfold overrideFor
  rw [h]

theorem upsertOverrideList_find (t : Nat) (wid : Nat) (pct : ℚ) :
    ∀ l : List OverrideRec,
      ∃ o, (upsertOverrideList t wid pct l).find? (fun x => x.wine_id == wid) = some o ∧
        o.adjustment_pct = pct ∧ o.updated_at = t := by
  intro l
  induction l with
  | nil =>
    refine ⟨{ wine_id := wid, adjustment_pct := pct, updated_at := t }, ?_, rfl, rfl⟩
    simp [upsertOverrideList, List.find?]
  | cons o rest ih =>
    by_cases h : o.wine_id == wid
    · refine ⟨{ o with adjustment_pct := pct, updated_at := t }, ?_, rfl, rfl⟩
      unfold upsertOverrideList
      rw [if_pos h]
      exact List.find?_cons_of_pos _ h
    · obtain ⟨x, hx, hpct, ht⟩ := ih
      refine ⟨x, ?_, hpct, ht⟩
      unfold upsertOverrideList
      rw [if_neg h]
      rw [List.find?_cons_of_neg _ (by simpa using h), hx]

theorem overrideFor_upsertOverride (t : Nat) (s : Store) (wid : Nat) (pct : ℚ) :
    overrideFor (upsertOverride t s wid pct) wid = pct := by
  unfold overrideFor upsertOverride
  obtain ⟨o, ho, hpct, _⟩ := upsertOverrideList_find t wid pct s.overrides
  rw [ho]
  exact hpct

/-- C4: the admin override write path rejects every adjustment
percentage strictly outside [-25, 25] before writing anything, leaving
the store untouched, and accepts every in-range percentage (so exactly
25 and exactly -25 are accepted) for an existing wine, recording it
unclamped. -/
theorem C4_setOverride_validation (now : Nat) (s : Store) (wid : Nat) (pct : ℚ) :
    ((pct < -25 ∨ 25 < pct) → setOverride now s wid pct = (OverrideResult.badRequest, s)) ∧
    (-25 ≤ pct → pct ≤ 25 → s.wines.any (fun w => w.id == wid) = true →
      (setOverride now s wid pct).1 = OverrideResult.ok ∧
      overrideFor (setOverride now s wid pct).2 wid = pct) := by
  constructor
  · intro h
    unfold setOverride
    rw [if_pos h]
  · intro h1 h2 h3
    unfold setOverride
    rw [if_neg (by push_neg; exact ⟨by linarith, by linarith⟩), if_pos h3]
    exact ⟨rfl, overrideFor_upsertOverride now s wid pct⟩

/-- C4 witness: on the concrete one-wine store, 25.1 is rejected with
no write, -25.1 is rejected with no write, and exactly 25 and exactly
-25 are accepted and stored unclamped. -/
theorem C4_setOverride_validation_witness :
    setOverride 5 sampleStore 1 (251/10) = (OverrideResult.badRequest, sampleStore) ∧
    setOverride 5 sampleStore 1 (-(251/10)) = (OverrideResult.badRequest, sampleStore) ∧
    (setOverride 5 sampleStore 1 25).1 = OverrideResult.ok ∧
    overrideFor (setOverride 5 sampleStore 1 25).2 1 = 25 ∧
    (setOverride 5 sampleStore 1 (-25)).1 = OverrideResult.ok ∧
    overrideFor (setOverride 5 sampleStore 1 (-25)).2 1 = -25 := by
  refine ⟨(C4_setOverride_validation 5 sampleStore 1 (251/10)).1 (Or.inr (by norm_num)),
    (C4_setOverride_validation 5 sampleStore 1 (-(251/10))).1 (Or.inl (by norm_num)),
    ?_, ?_, ?_, ?_⟩
  · exact ((C4_setOverride_validation 5 sampleStore 1 25).2 (by norm_num) (by norm_num)
      (by rfl)).1
  · exact ((C4_setOverride_validation 5 sampleStore 1 25).2 (by norm_num) (by norm_num)
      (by rfl)).2
  · exact ((C4_setOverride_validation 5 sampleStore 1 (-25)).2 (by norm_num) (by norm_num)
      (by rfl)).1
  · exact ((C4_setOverride_validation 5 sampleStore 1 (-25)).2 (by norm_num) (by norm_num)
      (by rfl)).2

theorem daysSince_none (now : Nat) : daysSince now none = 9999 := rfl

theorem daysSince_some (now t : Nat) : daysSince now (some t) = now - t := rfl

/-- C7: with a batch available, the periodic due-check triggers
ingestion and advances last_refresh to now whenever last_refresh is
absent or at least 75 days old; when strictly fewer than 75 days have
elapsed it performs no ingestion and leaves the store unchanged. -/
theorem C7_due_check (now : Nat) (s : Store) (B : List ImportRecord) :
    (s.last_refresh = none →
      cronCheck now (some B) s = ingest now s B ∧
      (cronCheck now (some B) s).last_refresh = some now) ∧
    (∀ t, s.last_refresh = some t → 75 ≤ now - t →
      cronCheck now (some B) s = ingest now s B ∧
      (cronCheck now (some B) s).last_refresh = some now) ∧
    (∀ t seed, s.last_refresh = some t → now - t < 75 → cronCheck now seed s = s) := by
  refine ⟨fun h => ?_, fun t ht hd => ?_, fun t seed ht hd => ?_⟩
  · have e : cronCheck now (some B) s = ingest now s B := by
      unfold cronCheck
      rw [h, daysSince_none, if_pos (by norm_num)]
      rfl
    exact ⟨e, by rw [e]; rfl⟩
  · have e : cronCheck now (some B) s = ingest now s B := by
      unfold cronCheck
      rw [ht, daysSince_some, if_pos hd]
      rfl
    exact ⟨e, by rw [e]; rfl⟩
  · unfold cronCheck
    rw [ht, daysSince_some, if_neg (by omega)]

/-- C7 witness: with the last refresh on day 10, a check on day 85
(exactly 75 days later) ingests and moves last_refresh to day 85, a
check on day 84 (74 days later) changes nothing, and a never-refreshed
store is due immediately. -/
theorem C7_due_check_witness :
    cronCheck 85 (some [recB]) schedStore = ingest 85 schedStore [recB] ∧
    (cronCheck 85 (some [recB]) schedStore).last_refresh = some 85 ∧
    cronCheck 84 (some [recB]) schedStore = schedStore ∧
    (cronCheck 20 (some [recB]) schedStoreNone).last_refresh = some 20 := by
  refine ⟨((C7_due_check 85 schedStore [recB]).2.1 10 rfl (by norm_num)).1,
    ((C7_due_check 85 schedStore [recB]).2.1 10 rfl (by norm_num)).2,
    (C7_due_check 84 schedStore [recB]).2.2 10 (some [recB]) rfl (by norm_num),
    ((C7_due_check 20 schedStoreNone [recB]).1 rfl).2⟩

/-! Lemmas tracking external ids through wine upserts. -/

theorem applyUpd_external_id (t : Nat) (w : Wine) (r : ImportRecord) :
    (applyUpd t w r).external_id = w.external_id := rfl

theorem updLast_external_id (t : Nat) (B : List ImportRecord) (w : Wine) :
    (updLast t B w).external_id = w.external_id := by
  unfold updLast
  cases (B.filter (fun r => r.external_id == w.external_id)).getLast? <;> rfl

theorem hasEid_iff (s : Store) (e : String) : hasEid s e = true ↔ e ∈ eids s := by
  unfold hasEid eids
  rw [List.any_eq_true]
  constructor
  · rintro ⟨w, hw, hbeq⟩
    exact List.mem_map.mpr ⟨w, hw, beq_iff_eq.mp hbeq⟩
  · intro hm
    obtain ⟨w, hw, he⟩ := List.mem_map.mp hm
    exact ⟨w, hw, beq_iff_eq.mpr he⟩

theorem eids_upsertWine (t : Nat) (s : Store) (r : ImportRecord) :
    eids (upsertWine t s r)
      = if r.external_id ∈ eids s then eids s else eids s ++ [r.external_id] := by
  by_cases h : r.external_id ∈ eids s
  · rw [if_pos h]
    unfold upsertWine
    rw [if_pos ((hasEid_iff s r.external_id).mpr h)]
    unfold eids
    simp only [List.map_map]
    refine List.map_congr_left fun w _ => ?_
    simp only [Function.comp_apply]
    split <;> rfl
  · rw [if_neg h]
    unfold upsertWine
    rw [if_neg (fun hc => h ((hasEid_iff s r.external_id).mp hc))]
    unfold eids
    rw [List.map_append]
    rfl

theorem mem_eids_upsertWine (t : Nat) (s : Store) (r : ImportRecord) (e : String)
    (h : e ∈ eids s) : e ∈ eids (upsertWine t s r) := by
  rw [eids_upsertWine]
  split
  · exact h
  · exact List.mem_append_left _ h

theorem self_mem_eids_upsertWine (t : Nat) (s : Store) (r : ImportRecord) :
    r.external_id ∈ eids (upsertWine t s r) := by
  by_cases h : r.external_id ∈ eids s
  · rw [eids_upsertWine, if_pos h]
    exact h
  · rw [eids_upsertWine, if_neg h]
    exact List.mem_append_right _ (by simp)

theorem mem_eids_foldl (t : Nat) :
    ∀ (B : List ImportRecord) (s : Store) (e : String),
      e ∈ eids s → e ∈ eids (B.foldl (upsertWine t) s) := by
  intro B
  induction B with
  | nil => intro s e h; exact h
  | cons b B ih =>
    intro s e h
    rw [List.foldl_cons]
    exact ih _ e (mem_eids_upsertWine t s b e h)

theorem batch_mem_eids_foldl (t : Nat) :
    ∀ (B : List ImportRecord) (s : Store) (r : ImportRecord), r ∈ B →
      r.external_id ∈ eids (B.foldl (upsertWine t) s) := by
  intro B
  induction B with
  | nil => intro s r h; cases h
  | cons b B ih =>
    intro s r h
    rw [List.foldl_cons]
    rcases List.mem_cons.mp h with rfl | h2
    · exact mem_eids_foldl t B _ _ (self_mem_eids_upsertWine t s r)
    · exact ih _ r h2

theorem nodup_eids_upsertWine (t : Nat) (s : Store) (r : ImportRecord)
    (h : (eids s).Nodup) : (eids (upsertWine t s r)).Nodup := by
  rw [eids_upsertWine]
  by_cases hm : r.external_id ∈ eids s
  · rw [if_pos hm]
    exact h
  · rw [if_neg hm]
    rw [List.nodup_append]
    refine ⟨h, List.nodup_singleton _, ?_⟩
    intro x hx hx2
    simp only [List.mem_singleton] at hx2
    subst hx2
    exact hm hx

theorem nodup_eids_foldl (t : Nat) :
    ∀ (B : List ImportRecord) (s : Store),
      (eids s).Nodup → (eids (B.foldl (upsertWine t) s)).Nodup := by
  intro B
  induction B with
  | nil => intro s h; exact h
  | cons b B ih =>
    intro s h
    rw [List.foldl_cons]
    exact ih _ (nodup_eids_upsertWine t s b h)

/-! Lemmas characterising what a fold of upserts does to existing rows. -/

theorem upsertWine_wines_pos (t : Nat) (s : Store) (r : ImportRecord)
    (h : hasEid s r.external_id = true) :
    (upsertWine t s r).wines
      = s.wines.map (fun w => if w.external_id == r.external_id then applyUpd t w r else w) := by
  unfold upsertWine
  rw [if_pos h]

theorem upsertWine_wines_neg (t : Nat) (s : Store) (r : ImportRecord)
    (h : hasEid s r.external_id = false) :
    (upsertWine t s r).wines = s.wines ++ [newWine t (nextId s) r] := by
  unfold upsertWine
  rw [if_neg (by rw [h]; exact Bool.false_ne_true)]

theorem applyUpd_updLast (t2 t : Nat) (B : List ImportRecord) (w : Wine) (a : ImportRecord) :
    applyUpd t2 (updLast t B w) a = applyUpd t2 w a := by
  unfold updLast
  cases (B.filter (fun r => r.external_id == w.external_id)).getLast? <;> rfl

theorem updLast_concat (t : Nat) (B : List ImportRecord) (a : ImportRecord) (w : Wine) :
    updLast t (B ++ [a]) w
      = if w.external_id = a.external_id then applyUpd t w a else updLast t B w := by
  by_cases h : w.external_id = a.external_id
  · rw [if_pos h]
    unfold updLast
    rw [List.filter_append]
    have hf : List.filter (fun r => r.external_id == w.external_id) [a] = [a] := by
      simp [List.filter_cons, h]
    rw [hf, List.getLast?_concat]
  · rw [if_neg h]
    unfold updLast
    rw [List.filter_append]
    have hf : List.filter (fun r => r.external_id == w.external_id) [a] = [] := by
      simp only [List.filter_cons, List.filter_nil]
      rw [if_neg ?_]
      intro hc
      exact h (beq_iff_eq.mp hc).symm
    rw [hf, List.append_nil]

theorem foldl_upsertWine_wines_of_mem (t : Nat) (s : Store) :
    ∀ B : List ImportRecord, (∀ r ∈ B, r.external_id ∈ eids s) →
      (B.foldl (upsertWine t) s).wines = s.wines.map (updLast t B) := by
  intro B
  induction B using List.reverseRecOn with
  | nil =>
    intro _
    simp only [List.foldl_nil]
    symm
    rw [show s.wines.map (updLast t []) = s.wines.map id from
      List.map_congr_left fun w _ => rfl, List.map_id]
  | append_singleton B a ih =>
    intro hmem
    rw [List.foldl_append, List.foldl_cons, List.foldl_nil]
    have hB : ∀ r ∈ B, r.external_id ∈ eids s :=
      fun r hr => hmem r (List.mem_append_left _ hr)
    have ha : a.external_id ∈ eids s := hmem a (List.mem_append_right _ (by simp))
    have hw := ih hB
    have heids : eids (B.foldl (upsertWine t) s) = eids s := by
      unfold eids
      rw [hw, List.map_map]
      exact List.map_congr_left fun w _ => updLast_external_id t B w
    have hhas : hasEid (B.foldl (upsertWine t) s) a.external_id = true :=
      (hasEid_iff _ _).mpr (heids ▸ ha)
    rw [upsertWine_wines_pos t _ a hhas, hw, List.map_map]
    refine List.map_congr_left fun w _ => ?_
    simp only [Function.comp_apply]
    rw [updLast_concat]
    by_cases hc : w.external_id = a.external_id
    · rw [if_pos hc, if_pos (by rw [updLast_external_id]; exact beq_iff_eq.mpr hc)]
      exact applyUpd_updLast t t B w a
    · rw [if_neg hc, if_neg ?_]
      rw [updLast_external_id]
      intro hb
      exact hc (beq_iff_eq.mp hb)

theorem payloadEq_applyUpd (t : Nat) (w : Wine) (r : ImportRecord) :
    payloadEq (applyUpd t w r) r t :=
  ⟨rfl, rfl, rfl, rfl, rfl, rfl, rfl, rfl, rfl⟩

theorem payloadEq_newWine (t : Nat) (wid : Nat) (r : ImportRecord) :
    payloadEq (newWine t wid r) r t :=
  ⟨rfl, rfl, rfl, rfl, rfl, rfl, rfl, rfl, rfl⟩

theorem payload_foldl (t : Nat) (s : Store) :
    ∀ (B : List ImportRecord) (w : Wine), w ∈ (B.foldl (upsertWine t) s).wines →
      ∀ r, (B.filter (fun x => x.external_id == w.external_id)).getLast? = some r →
        payloadEq w r t := by
  intro B
  induction B using List.reverseRecOn with
  | nil =>
    intro w _ r hr
    simp at hr
  | append_singleton B a ih =>
    intro w hw r hr
    rw [List.foldl_append, List.foldl_cons, List.foldl_nil] at hw
    rw [List.filter_append] at hr
    by_cases hcase : hasEid (B.foldl (upsertWine t) s) a.external_id
    · rw [upsertWine_wines_pos t _ a hcase] at hw
      obtain ⟨w0, hw0, hgw⟩ := List.mem_map.mp hw
      by_cases hc : w0.external_id = a.external_id
      · rw [if_pos (beq_iff_eq.mpr hc)] at hgw
        subst hgw
        have hf : List.filter
            (fun x => x.external_id == (applyUpd t w0 a).external_id) [a] = [a] := by
          simp [List.filter_cons, applyUpd_external_id, hc]
        rw [hf, List.getLast?_concat] at hr
        obtain rfl := Option.some.inj hr
        exact payloadEq_applyUpd t w0 a
      · rw [if_neg (fun hb => hc (beq_iff_eq.mp hb))] at hgw
        subst hgw
        have hf : List.filter (fun x => x.external_id == w0.external_id) [a] = [] := by
          simp only [List.filter_cons, List.filter_nil]
          rw [if_neg (fun hb => hc (beq_iff_eq.mp hb).symm)]
        rw [hf, List.append_nil] at hr
        exact ih w0 hw0 r hr
    · have hcF : hasEid (B.foldl (upsertWine t) s) a.external_id = false := by
        simpa using hcase
      rw [upsertWine_wines_neg t _ a hcF] at hw
      rw [List.mem_append] at hw
      rcases hw with hw | hw
      · have hne : ¬ w.external_id = a.external_id := by
          intro hc
          apply hcase
          refine (hasEid_iff _ _).mpr ?_
          rw [← hc]
          exact List.mem_map.mpr ⟨w, hw, rfl⟩
        have hf : List.filter (fun x => x.external_id == w.external_id) [a] = [] := by
          simp only [List.filter_cons, List.filter_nil]
          rw [if_neg (fun hb => hne (beq_iff_eq.mp hb).symm)]
        rw [hf, List.append_nil] at hr
        exact ih w hw r hr
      · simp only [List.mem_singleton] at hw
        subst hw
        have hf : List.filter
            (fun x => x.external_id
              == (newWine t (nextId (B.foldl (upsertWine t) s)) a).external_id) [a] = [a] := by
          simp [List.filter_cons, newWine]
        rw [hf, List.getLast?_concat] at hr
        obtain rfl := Option.some.inj hr
        exact payloadEq_newWine t _ a

/-- C6: re-ingesting an identical batch is idempotent: the second pass
keeps every row in place (same id, externalId, name, winery,
appellation, vintage, score, review count, price and createdAt, so
only updatedAt and sourceUpdatedAt move), no duplicate rows appear
(externalIds stay pairwise distinct when they started distinct), the
row count is unchanged, and last_refresh advances to the second
ingestion time. -/
theorem C6_idempotent_ingest (s : Store) (B : List ImportRecord) (t1 t2 : Nat) :
    List.Forall₂ sameExceptTimestamps (ingest t1 s B).wines
      (ingest t2 (ingest t1 s B) B).wines ∧
    ((eids s).Nodup → (eids (ingest t2 (ingest t1 s B) B)).Nodup) ∧
    (ingest t2 (ingest t1 s B) B).wines.length = (ingest t1 s B).wines.length ∧
    (ingest t2 (ingest t1 s B) B).last_refresh = some t2 := by
  have hmem : ∀ r ∈ B, r.external_id ∈ eids (ingest t1 s B) :=
    fun r hr => batch_mem_eids_foldl t1 B s r hr
  have hpass2 : (ingest t2 (ingest t1 s B) B).wines
      = (ingest t1 s B).wines.map (updLast t2 B) :=
    foldl_upsertWine_wines_of_mem t2 (ingest t1 s B) B hmem
  refine ⟨?_, ?_, ?_, rfl⟩
  · rw [hpass2, List.forall₂_map_right_iff, List.forall₂_same]
    intro w hw
    unfold updLast
    cases hl : (B.filter (fun r => r.external_id == w.external_id)).getLast? with
    | none => exact ⟨rfl, rfl, rfl, rfl, rfl, rfl, rfl, rfl, rfl, rfl⟩
    | some r =>
      obtain ⟨h1, h2, h3, h4, h5, h6, h7, _, _⟩ := payload_foldl t1 s B w hw r hl
      exact ⟨rfl, rfl, h1, h2, h3, h4, h5, h6, h7, rfl⟩
  · intro hnd
    have heq : eids (ingest t2 (ingest t1 s B) B) = eids (ingest t1 s B) := by
      unfold eids
      rw [hpass2, List.map_map]
      exact List.map_congr_left fun w _ => updLast_external_id t2 B w
    rw [heq]
    exact nodup_eids_foldl t1 B s hnd
  · rw [hpass2, List.length_map]

/-- C6 witness: ingesting a concrete one-record batch twice into the
concrete store keeps every field of every row except the timestamps,
and the external ids stay distinct. -/
theorem C6_idempotent_ingest_witness :
    (eids (ingest 2 (ingest 1 sampleStore [recB]) [recB])).Nodup ∧
    List.Forall₂ sameExceptTimestamps (ingest 1 sampleStore [recB]).wines
      (ingest 2 (ingest 1 sampleStore [recB]) [recB]).wines :=
  ⟨(C6_idempotent_ingest sampleStore [recB] 1 2).2.1 (by decide),
   (C6_idempotent_ingest sampleStore [recB] 1 2).1⟩

/-- C9 counterexample: GET /api/aocs cannot be returning the counts.
The one-Margaux store and the two-Margaux store have different
per-appellation counts, yet the endpoint responds identically to both,
because res.json(rows.map(r => r.aoc)) drops the COUNT column. -/
theorem C9_aocs_counterexample :
    apiAocs sampleStore = apiAocs sampleStore2 ∧
    aocRows sampleStore = [("Margaux", 1)] ∧
    aocRows sampleStore2 = [("Margaux", 2)] := by
  refine ⟨rfl, ?_, ?_⟩ <;> decide

/-- C9 amended: the endpoint computes the distinct appellations with
their counts, ordered ascending by name, but its response carries only
the appellation names (sorted ascending, without duplicates, one per
appellation present in the catalog); the counts are computed in the
query yet dropped from the response. -/
theorem C9_aocs_amended (s : Store) :
    apiAocs s = (aocRows s).map Prod.fst ∧
    List.Sorted (fun a b : String => a ≤ b) (apiAocs s) ∧
    (apiAocs s).Nodup ∧
    (∀ a, a ∈ apiAocs s ↔ ∃ w, w ∈ s.wines ∧ w.aoc = a) ∧
    (∀ p, p ∈ aocRows s → p.2 = (s.wines.filter (fun w => w.aoc == p.1)).length) := by
  have he : apiAocs s = List.insertionSort (fun a b => a ≤ b) (aocNames s) := by
    unfold apiAocs aocRows
    rw [List.map_map]
    exact (List.map_congr_left fun a _ => rfl).trans (List.map_id _)
  refine ⟨rfl, ?_, ?_, ?_, ?_⟩
  · rw [he]
    exact List.sorted_insertionSort _ _
  · rw [he]
    exact ((List.perm_insertionSort _ _).nodup_iff).mpr (List.nodup_dedup _)
  · intro a
    rw [he, (List.perm_insertionSort _ _).mem_iff]
    unfold aocNames
    rw [List.mem_dedup, List.mem_map]
  · intro p hp
    unfold aocRows at hp
    obtain ⟨a, _, rfl⟩ := List.mem_map.mp hp
    rfl

/-- C8 witness: the concrete wine with base score 4.2 and no override
passes inclusive bounds 4 and 5 on the effective score and is in the
query result. -/
theorem C8_bounds_on_effective_witness :
    rowOf sampleStore wineA ∈ rankedRows sampleStore none none (some 4) (some 5) := by
  have hz : (rowOf sampleStore wineA).adjustment_pct = 0 := by
    simp [rowOf, overrideFor, sampleStore]
  refine (C8_bounds_on_effective sampleStore none none (some 4) (some 5)
      (rowOf sampleStore wineA)).mpr ⟨?_, rfl, rfl, ?_, ?_⟩
  · exact List.mem_map.mpr ⟨wineA, by simp [sampleStore], rfl⟩
  · intro x hx
    cases hx
    rw [hz]
    norm_num [adjustedRating, clamp, rowOf, wineA]
  · intro x hx
    cases hx
    rw [hz]
    norm_num [adjustedRating, clamp, rowOf, wineA]

/-- C9 witness for the amended claim, at the concrete one-wine store:
the response lists exactly the appellations of the catalog, and the
count column of the underlying query row for Margaux is 1. -/
theorem C9_aocs_amended_witness :
    ("Margaux" ∈ apiAocs sampleStore ↔ ∃ w, w ∈ sampleStore.wines ∧ w.aoc = "Margaux") ∧
    (("Margaux", 1) : String × Nat).2
      = (sampleStore.wines.filter (fun w => w.aoc == ("Margaux", 1).1)).length :=
  ⟨(C9_aocs_amended sampleStore).2.2.2.1 "Margaux",
   (C9_aocs_amended sampleStore).2.2.2.2 ("Margaux", 1) (by decide)⟩
